import Mathlib

/-!
Verification of the score-tracking logic of the fpl_dashboard repository
(src/main.py together with the table definitions in src/models.py).

The scores table is modelled as a `List Score` in rowid (insertion) order.
Python integers are modelled by `Int`.  A request handler that can abort with
an HTTP error (404, or an uncaught ValueError from `int(...)`) is modelled as
a function returning `Option`: `none` means the request aborted before the
single `session.commit()` at its end, so the durable store is unchanged.

SQLAlchemy sessions autoflush: every `session.exec(...)` sees the writes
staged earlier in the same request.  The translations below thread the
working database state through each query accordingly.  `ORDER BY gameweek`
is modelled with a stable insertion sort.
-/

/-- A row of the `scores` table (src/models.py, class `Score`).  The derived
`overall_points` column is an ordinary stored field. -/
structure Score where
  id : Int
  player_id : Int
  gameweek : Int
  week_points : Int
  week_cost : Int
  overall_points : Int
deriving DecidableEq, Repr

/-- A row of the `players` table (src/models.py, class `Player`). -/
structure Player where
  id : Int
  name : String
  team : String
deriving DecidableEq, Repr

/-- The weekly net contribution `week_points - week_cost` of one score row. -/
def Score.delta (s : Score) : Int :=
  s.week_points - s.week_cost

/-- Sum of `week_points - week_cost` over a list of rows: the shape of every
cumulative-total computation in src/main.py. -/
def sumDelta (l : List Score) : Int :=
  (l.map Score.delta).sum

/-- Two rows agree on every column except possibly `overall_points`. -/
def sameShape (a b : Score) : Prop :=
  a.id = b.id ∧ a.player_id = b.player_id ∧ a.gameweek = b.gameweek ∧
    a.week_points = b.week_points ∧ a.week_cost = b.week_cost

/-- An UPDATE of the row with primary key `sid` to the new row value `r`
(the ORM flushes the mutated identity-mapped object back to its row). -/
def applyWrite (db : List Score) (sid : Int) (r : Score) : List Score :=
  db.map (fun s => if s.id == sid then r else s)

/-- One statement issued by a request: a staged row write, or `session.commit()`. -/
inductive TxStmt where
  | write (sid : Int) (r : Score)
  | commit
deriving DecidableEq, Repr

/-- Runs a statement list against a (durable, working) pair of stores.  Each
`commit` consumes one entry of the outcome list `oks`: on `true` the working
state becomes durable, on `false` (or an exhausted list) the exception
propagates, the session is closed without committing, and the durable store
is returned as it stands. -/
def runStmts : List TxStmt → List Bool → List Score → List Score → List Score
  | [], _, durable, _ => durable
  | .write sid r :: rest, oks, durable, working =>
      runStmts rest oks durable (applyWrite working sid r)
  | .commit :: rest, oks, durable, working =>
      match oks with
      | true :: oks' => runStmts rest oks' working working
      | _ => durable

/-- The body of the `for subsequent_score in subsequent_scores` loop of
`update_score` (src/main.py lines 474-486): re-read every score of the player
up to the subsequent row's gameweek from the working state, recompute the
cumulative total, and stage the write. -/
def subStep (p : Int) (st : List TxStmt × List Score) (sub : Score) :
    List TxStmt × List Score :=
  let acc := st.2
  let t := sumDelta (acc.filter
    (fun s => s.player_id == p && decide (s.gameweek ≤ sub.gameweek)))
  (st.1 ++ [.write sub.id { sub with overall_points := t }],
    applyWrite acc sub.id { sub with overall_points := t })

/-- The POST `/scores/{score_id}` handler `update_score` (src/main.py lines
430-493), returning both the statement trace of the session and the final
working state.  `none` models the 404 raised when the id is absent (raised
before any write, so the store is untouched). -/
def update_score_session (db : List Score)
    (score_id player_id gameweek week_points week_cost : Int) :
    Option (List TxStmt × List Score) :=
  match db.find? (fun s => s.id == score_id) with
  | none => none
  | some _score =>
    let other_scores := db.filter (fun s =>
      s.player_id == player_id && decide (s.gameweek ≤ gameweek) && s.id != score_id)
    let total_points := sumDelta other_scores + (week_points - week_cost)
    let newScore : Score :=
      ⟨score_id, player_id, gameweek, week_points, week_cost, total_points⟩
    let db1 := applyWrite db score_id newScore
    let subsequent := (db1.filter (fun s =>
      s.player_id == player_id && decide (gameweek < s.gameweek))).insertionSort
        (fun a b => a.gameweek ≤ b.gameweek)
    let res := subsequent.foldl (subStep player_id) ([.write score_id newScore], db1)
    some (res.1 ++ [.commit], res.2)

/-- The store produced by a successful `update_score` request. -/
def update_score (db : List Score)
    (score_id player_id gameweek week_points week_cost : Int) :
    Option (List Score) :=
  (update_score_session db score_id player_id gameweek week_points week_cost).map
    Prod.snd

/-- Is the character one of the ASCII whitespace characters stripped by
Python's `str.strip()` / ignored by `int(str)`. -/
def pyWhitespace (c : Char) : Bool :=
  c = ' ' || c = '\t' || c = '\n' || c = '\r' || c = '\x0b' || c = '\x0c'

/-- Python `str.strip()` (restricted to ASCII whitespace). -/
def pyStrip (s : String) : String :=
  ⟨((s.data.dropWhile pyWhitespace).reverse.dropWhile pyWhitespace).reverse⟩

/-- Digits of a Python integer literal after its first digit: further digits,
with single underscores allowed between digits only. -/
def pyDigitsRest : List Char → Option (List Char)
  | [] => some []
  | ['_'] => none
  | '_' :: c :: rest =>
      if c.isDigit then (pyDigitsRest rest).map (fun l => c :: l) else none
  | c :: rest =>
      if c.isDigit then (pyDigitsRest rest).map (fun l => c :: l) else none

/-- Digit run of a Python integer literal: at least one leading digit. -/
def pyDigits : List Char → Option (List Char)
  | [] => none
  | c :: rest =>
      if c.isDigit then (pyDigitsRest rest).map (fun l => c :: l) else none

/-- Numeric value of a digit list. -/
def digitsVal (l : List Char) : Nat :=
  l.foldl (fun acc c => acc * 10 + (c.toNat - '0'.toNat)) 0

/-- Sign handling of Python `int(str)` after stripping whitespace. -/
def pyIntCore : List Char → Option Int
  | '+' :: rest => (pyDigits rest).map (fun l => (digitsVal l : Int))
  | '-' :: rest => (pyDigits rest).map (fun l => -(digitsVal l : Int))
  | l => (pyDigits l).map (fun l => (digitsVal l : Int))

/-- Python `int(s)` on a string (ASCII digits): `none` models `ValueError`. -/
def pyInt (s : String) : Option Int :=
  pyIntCore (pyStrip s).data

/-- Python falsiness of an optional form value: `None` or the empty string.
This is the `if not week_points or not week_cost: continue` test. -/
def strFalsy : Option String → Bool
  | none => true
  | some s => s == ""

/-- Python `int(x)` applied to an optional form string. -/
def formInt? : Option String → Option Int
  | none => none
  | some s => pyInt s

/-- The multipart form of the bulk POST `/scores` request: the optional
`gameweek` field plus the `week_points_{id}` / `week_cost_{id}` fields keyed
by player id. -/
structure BulkForm where
  gameweek : Option String
  points : Int → Option String
  costs : Int → Option String

/-- The `int(form_data.get("gameweek", 1))` step of `create_scores_bulk`:
a missing field defaults to 1, an unparsable one raises. -/
def bulkGameweek (form : BulkForm) : Option Int :=
  match form.gameweek with
  | none => some 1
  | some s => pyInt s

/-- The body of the `for player in players` loop of `create_scores_bulk`
(src/main.py lines 370-416) for one player, threading the working scores
table and the SQLite autoincrement id counter.  `none` models an uncaught
`ValueError` from `int(...)`, which aborts the request before its commit. -/
def bulk_step (g : Int) (form : BulkForm) (st : Option (List Score × Int))
    (player : Player) : Option (List Score × Int) :=
  match st with
  | none => none
  | some (db, nid) =>
    let wp? := form.points player.id
    let wc? := form.costs player.id
    if strFalsy wp? || strFalsy wc? then
      some (db, nid)
    else
      match formInt? wp?, formInt? wc? with
      | some wp, some wc =>
        (match db.find? (fun s => s.player_id == player.id && s.gameweek == g) with
         | some existing =>
             some (applyWrite db existing.id
               { existing with week_points := wp, week_cost := wc }, nid)
         | none =>
             let existing_scores := db.filter (fun s => s.player_id == player.id)
             let total := sumDelta existing_scores + (wp - wc)
             some (db ++ [⟨nid, player.id, g, wp, wc, total⟩], nid + 1))
      | _, _ => none

/-- The bulk POST `/scores` handler `create_scores_bulk` (src/main.py lines
355-419).  `players` is the players table, `nid` the next autoincrement score
id.  The single commit sits after the loop, so `none` (an uncaught exception)
leaves the durable store unchanged. -/
def create_scores_bulk (players : List Player) (db : List Score)
    (form : BulkForm) (nid : Int) : Option (List Score) :=
  match bulkGameweek form with
  | none => none
  | some g =>
    match players.foldl (bulk_step g form) (some (db, nid)) with
    | none => none
    | some res => some res.1

/-- The DELETE `/scores/{score_id}` handler `delete_score` (src/main.py lines
496-507): 404 when the id is absent, otherwise the row with that primary key
is removed and nothing else is touched. -/
def delete_score (db : List Score) (score_id : Int) : Option (List Score) :=
  match db.find? (fun s => s.id == score_id) with
  | none => none
  | some _score => some (db.eraseP (fun s => s.id == score_id))

/-- The POST `/scores/{score_id}/delete` handler `delete_score_form`
(src/main.py lines 510-522); its body repeats `delete_score` verbatim. -/
def delete_score_form (db : List Score) (score_id : Int) : Option (List Score) :=
  match db.find? (fun s => s.id == score_id) with
  | none => none
  | some _score => some (db.eraseP (fun s => s.id == score_id))

/-- The query-building part of the GET `/scores` handler (src/main.py lines
304-332): each of the two optional string filters is applied only when the
raw string is truthy, strips to a truthy string, and parses as an int;
a `ValueError` is swallowed and the filter skipped. -/
def scores (db : List Score) (player_id gameweek : Option String) : List Score :=
  let q1 : Score → Bool := fun _ => true
  let q2 : Score → Bool :=
    match player_id with
    | none => q1
    | some s =>
        if s != "" && pyStrip s != "" then
          match pyInt s with
          | some n => fun sc => q1 sc && sc.player_id == n
          | none => q1
        else q1
  let q3 : Score → Bool :=
    match gameweek with
    | none => q2
    | some s =>
        if s != "" && pyStrip s != "" then
          match pyInt s with
          | some n => fun sc => q2 sc && sc.gameweek == n
          | none => q2
        else q2
  db.filter q3

/-- The §3 invariant instantiated at one row: its cumulative total equals the
sum of `week_points - week_cost` over the same player's rows with gameweek at
most its own. -/
def invariantFor (db : List Score) (r : Score) : Prop :=
  r.overall_points = sumDelta (db.filter (fun t =>
    t.player_id == r.player_id && decide (t.gameweek ≤ r.gameweek)))

/-- Well-formed id state of the scores table: primary keys are distinct and
below the next autoincrement value. -/
def goodIds (db : List Score) (nid : Int) : Prop :=
  (db.map Score.id).Nodup ∧ ∀ s ∈ db, s.id < nid

/-- The new row built by `update_score` for the edited score: all four
submitted fields, plus the cumulative total computed from the other rows of
the (new) player up to the (new) gameweek. -/
def newScoreFor (db : List Score) (sid p g pts cost : Int) : Score :=
  ⟨sid, p, g, pts, cost,
    sumDelta (db.filter (fun s =>
      s.player_id == p && decide (s.gameweek ≤ g) && s.id != sid)) + (pts - cost)⟩

/-- Row rewrite performed on one subsequent score: full rescan of the
player's rows up to its gameweek in the state `db1`. -/
def touch (db1 : List Score) (p : Int) (s : Score) : Score :=
  { s with overall_points := sumDelta (db1.filter (fun t =>
      t.player_id == p && decide (t.gameweek ≤ s.gameweek))) }

/-- Rows whose id is in `done` have been rewritten by `touch`; the rest are
still as in `db1`. -/
def markDone (db1 : List Score) (p : Int) (done : List Int) (s : Score) : Score :=
  if s.id ∈ done then touch db1 p s else s

/-- Closed form of a successful `update_score`: the edited row is replaced by
`newScoreFor`, then every row of the new player with a strictly later
gameweek is rewritten by a full rescan of that state. -/
def update_spec (db : List Score) (sid p g pts cost : Int) : List Score :=
  let db1 := applyWrite db sid (newScoreFor db sid p g pts cost)
  db1.map (fun s =>
    if s.player_id == p && decide (g < s.gameweek) then touch db1 p s else s)

/-- The subsequent scores read by `update_score` step 3: rows of the player
with strictly later gameweeks, ordered by gameweek. -/
def subsequentOf (db1 : List Score) (p g : Int) : List Score :=
  (db1.filter (fun s => s.player_id == p && decide (g < s.gameweek))).insertionSort
    (fun a b => a.gameweek ≤ b.gameweek)

/-- The (trace, working state) pair a found `update_score` request builds;
`update_score_session` reduces to this once the id lookup succeeds. -/
def sessionResult (db : List Score) (sid p g pts cost : Int) :
    List TxStmt × List Score :=
  let N := newScoreFor db sid p g pts cost
  let db1 := applyWrite db sid N
  let res := (subsequentOf db1 p g).foldl (subStep p) ([.write sid N], db1)
  (res.1 ++ [.commit], res.2)

/-! ### Basic lemmas -/

theorem sumDelta_nil : sumDelta [] = 0 := rfl

theorem sumDelta_cons (a : Score) (l : List Score) :
    sumDelta (a :: l) = a.delta + sumDelta l := by
  simp [sumDelta]

theorem sumDelta_append (l₁ l₂ : List Score) :
    sumDelta (l₁ ++ l₂) = sumDelta l₁ + sumDelta l₂ := by
  simp [sumDelta]

theorem sameShape.delta_eq {a b : Score} (h : sameShape a b) : a.delta = b.delta := by
  obtain ⟨-, -, -, h4, h5⟩ := h
  simp [Score.delta, h4, h5]

/-- Summing `week_points - week_cost` over a filter is unchanged when the two
lists are related pointwise by a relation that the filter predicate and the
weekly deltas cannot distinguish. -/
theorem sumDelta_filter_congr {R : Score → Score → Prop} (p : Score → Bool)
    (hp : ∀ a b, R a b → p a = p b)
    (hd : ∀ a b, R a b → p a = true → a.delta = b.delta)
    {l₁ l₂ : List Score} (h : List.Forall₂ R l₁ l₂) :
    sumDelta (l₁.filter p) = sumDelta (l₂.filter p) := by
  induction h with
  | nil => rfl
  | cons hR hl ih =>
    rename_i a b t₁ t₂
    rw [List.filter_cons, List.filter_cons, ← hp _ _ hR]
    by_cases hpa : p a = true
    · rw [if_pos hpa, if_pos hpa, sumDelta_cons, sumDelta_cons, hd _ _ hR hpa, ih]
    · rw [if_neg hpa, if_neg hpa, ih]

/-- Mapping a function that is pointwise `R`-related to the identity yields a
`Forall₂ R`-related list. -/
theorem forall₂_map_self {R : Score → Score → Prop} (f : Score → Score)
    (h : ∀ s, R (f s) s) : ∀ l : List Score, List.Forall₂ R (l.map f) l
  | [] => List.Forall₂.nil
  | a :: l => List.Forall₂.cons (h a) (forall₂_map_self f h l)

/-- With distinct primary keys, a row of the table is determined by its id. -/
theorem eq_of_id_eq {l : List Score} (hnd : (l.map Score.id).Nodup)
    {a b : Score} (ha : a ∈ l) (hb : b ∈ l) (h : a.id = b.id) : a = b :=
  List.inj_on_of_nodup_map hnd ha hb h

theorem find?_eq_head?_filter (p : Score → Bool) (l : List Score) :
    l.find? p = (l.filter p).head? :=
  (List.filter_head? p l).symm

/-- Filtering after a map that fixes every member the predicate keeps, and
never changes the predicate's verdict, is filtering the original list. -/
theorem filter_map_eq_self (p : Score → Bool) :
    ∀ (l : List Score) (f : Score → Score),
      (∀ s ∈ l, p (f s) = p s) → (∀ s ∈ l, p s = true → f s = s) →
      (l.map f).filter p = l.filter p
  | [], _, _, _ => rfl
  | a :: l, f, h1, h2 => by
      rw [List.map_cons, List.filter_cons, List.filter_cons,
        h1 a (List.mem_cons_self a l)]
      by_cases hpa : p a = true
      · rw [if_pos hpa, if_pos hpa, h2 a (List.mem_cons_self a l) hpa,
          filter_map_eq_self p l f (fun s hs => h1 s (List.mem_cons_of_mem a hs))
            (fun s hs => h2 s (List.mem_cons_of_mem a hs))]
      · rw [if_neg hpa, if_neg hpa,
          filter_map_eq_self p l f (fun s hs => h1 s (List.mem_cons_of_mem a hs))
            (fun s hs => h2 s (List.mem_cons_of_mem a hs))]

theorem sameShape_refl (s : Score) : sameShape s s :=
  ⟨rfl, rfl, rfl, rfl, rfl⟩

theorem touch_shape (db1 : List Score) (p : Int) (s : Score) :
    sameShape (touch db1 p s) s :=
  ⟨rfl, rfl, rfl, rfl, rfl⟩

theorem markDone_shape (db1 : List Score) (p : Int) (done : List Int) (s : Score) :
    sameShape (markDone db1 p done s) s := by
  unfold markDone
  by_cases h : s.id ∈ done
  · rw [if_pos h]; exact touch_shape db1 p s
  · rw [if_neg h]; exact sameShape_refl s

theorem applyWrite_map_id (db : List Score) (sid : Int) (r : Score)
    (h : r.id = sid) : (applyWrite db sid r).map Score.id = db.map Score.id := by
  unfold applyWrite
  rw [List.map_map]
  apply List.map_eq_map_iff.mpr
  intro s _
  simp only [Function.comp_apply]
  by_cases hid : s.id = sid
  · rw [if_pos (by exact beq_iff_eq.mpr hid), h, hid]
  · rw [if_neg (by simp [hid])]

/-- Invariant of the subsequent-scores loop: after processing rows `done`,
the working state is `db1` with exactly those rows rewritten by `touch`. -/
theorem subFold_snd (p : Int) (db1 : List Score) (hnd : (db1.map Score.id).Nodup)
    (L : List Score) :
    ∀ (done : List Int) (ws : List TxStmt) (acc : List Score),
      (∀ x ∈ L, x ∈ db1) →
      acc = db1.map (markDone db1 p done) →
      (L.foldl (subStep p) (ws, acc)).2 =
        db1.map (markDone db1 p (done ++ L.map Score.id)) := by
  induction L with
  | nil => intro done ws acc _ hacc; simpa using hacc
  | cons sub L ih =>
    intro done ws acc hL hacc
    rw [List.foldl_cons]
    have hsub : sub ∈ db1 := hL sub (List.mem_cons_self _ _)
    have ht : sumDelta ((db1.map (markDone db1 p done)).filter
          (fun s => s.player_id == p && decide (s.gameweek ≤ sub.gameweek)))
        = sumDelta (db1.filter
          (fun s => s.player_id == p && decide (s.gameweek ≤ sub.gameweek))) := by
      refine sumDelta_filter_congr _ ?_ ?_
        (forall₂_map_self _ (fun s => markDone_shape db1 p done s) db1)
      · intro a b hab
        obtain ⟨-, h2, h3, -, -⟩ := hab
        rw [h2, h3]
      · intro a b hab _
        exact hab.delta_eq
    have hstep : (subStep p (ws, acc) sub).2 =
        db1.map (markDone db1 p (done ++ [sub.id])) := by
      simp only [subStep, applyWrite]
      rw [hacc, List.map_map]
      apply List.map_eq_map_iff.mpr
      intro s hs
      simp only [Function.comp_apply]
      have hmid : (markDone db1 p done s).id = s.id := (markDone_shape db1 p done s).1
      by_cases hid : s.id = sub.id
      · have hseq : s = sub := eq_of_id_eq hnd hs hsub hid
        rw [if_pos (by rw [hmid]; exact beq_iff_eq.mpr hid)]
        have hmem : s.id ∈ done ++ [sub.id] := by simp [hid]
        simp only [markDone]
        rw [if_pos hmem, ht, hseq]
        rfl
      · rw [if_neg (by rw [hmid]; simp [hid])]
        have hiff : (s.id ∈ done ++ [sub.id]) ↔ s.id ∈ done := by simp [hid]
        simp only [markDone]
        by_cases hdone : s.id ∈ done
        · rw [if_pos hdone, if_pos (hiff.mpr hdone)]
        · rw [if_neg hdone, if_neg (fun hc => hdone (hiff.mp hc))]
    have hL' : ∀ x ∈ L, x ∈ db1 := fun x hx => hL x (List.mem_cons_of_mem _ hx)
    have hrest := ih (done ++ [sub.id]) (subStep p (ws, acc) sub).1
      (subStep p (ws, acc) sub).2 hL' hstep
    rw [Prod.mk.eta] at hrest
    rw [hrest]
    simp [List.append_assoc]

/-- Is a statement a staged row write (rather than a commit). -/
def isWrite : TxStmt → Bool
  | .write _ _ => true
  | .commit => false

/-- Replay a list of staged writes over a working store. -/
def replay : List TxStmt → List Score → List Score
  | [], w => w
  | .write sid r :: rest, w => replay rest (applyWrite w sid r)
  | .commit :: rest, w => replay rest w

theorem replay_append (l₁ l₂ : List TxStmt) (w : List Score) :
    replay (l₁ ++ l₂) w = replay l₂ (replay l₁ w) := by
  induction l₁ generalizing w with
  | nil => rfl
  | cons s rest ih => cases s <;> simp [replay, ih]

/-- A statement list that is all writes followed by one final commit is
all-or-nothing: on a successful commit the durable store becomes the replay
of the writes, on a failed one it is untouched. -/
theorem runStmts_writes_then_commit (ws : List TxStmt) :
    ∀ (oks : List Bool) (d w : List Score),
      (∀ s ∈ ws, isWrite s = true) →
      runStmts (ws ++ [.commit]) oks d w =
        match oks with
        | true :: _ => replay ws w
        | _ => d := by
  induction ws with
  | nil =>
    intro oks d w _
    cases oks with
    | nil => rfl
    | cons b oks' => cases b <;> rfl
  | cons s rest ih =>
    intro oks d w hw
    cases s with
    | write sid r =>
      rw [List.cons_append]
      show runStmts (rest ++ [.commit]) oks d (applyWrite w sid r) = _
      rw [ih oks d _ (fun x hx => hw x (List.mem_cons_of_mem _ hx))]
      cases oks with
      | nil => rfl
      | cons b oks' => cases b <;> rfl
    | commit => exact absurd (hw _ (List.mem_cons_self _ _)) (by simp [isWrite])

/-- The statements accumulated by the subsequent-scores loop stay all-writes,
and replaying them reproduces the loop's working state. -/
theorem subFold_fst (p : Int) (L : List Score) :
    ∀ (ws : List TxStmt) (acc w0 : List Score),
      replay ws w0 = acc →
      (∀ s ∈ ws, isWrite s = true) →
      replay (L.foldl (subStep p) (ws, acc)).1 w0 = (L.foldl (subStep p) (ws, acc)).2
        ∧ ∀ s ∈ (L.foldl (subStep p) (ws, acc)).1, isWrite s = true := by
  induction L with
  | nil => intro ws acc w0 h hw; exact ⟨h, hw⟩
  | cons sub L ih =>
    intro ws acc w0 h hw
    rw [List.foldl_cons]
    have h1 : replay (subStep p (ws, acc) sub).1 w0 = (subStep p (ws, acc) sub).2 := by
      simp only [subStep]
      rw [replay_append, h]
      rfl
    have h2 : ∀ s ∈ (subStep p (ws, acc) sub).1, isWrite s = true := by
      simp only [subStep]
      intro s hs
      rcases List.mem_append.mp hs with h' | h'
      · exact hw s h'
      · rw [List.mem_singleton.mp h']; rfl
    have hrest := ih (subStep p (ws, acc) sub).1 (subStep p (ws, acc) sub).2 w0 h1 h2
    rw [Prod.mk.eta] at hrest
    exact hrest

theorem update_score_session_eq_of_find (db : List Score)
    (sid p g pts cost : Int) (sc0 : Score)
    (hfind : db.find? (fun s => s.id == sid) = some sc0) :
    update_score_session db sid p g pts cost =
      some (sessionResult db sid p g pts cost) := by
  unfold update_score_session sessionResult subsequentOf newScoreFor
  rw [hfind]

theorem update_score_session_eq_of_find_none (db : List Score)
    (sid p g pts cost : Int)
    (hfind : db.find? (fun s => s.id == sid) = none) :
    update_score_session db sid p g pts cost = none := by
  unfold update_score_session
  rw [hfind]

/-- Closed form of the working state built by a found `update_score`. -/
theorem sessionResult_snd (db : List Score) (sid p g pts cost : Int)
    (hnd : (db.map Score.id).Nodup) :
    (sessionResult db sid p g pts cost).2 = update_spec db sid p g pts cost := by
  unfold sessionResult update_spec
  set N : Score := newScoreFor db sid p g pts cost with hN
  set db1 : List Score := applyWrite db sid N with hdb1
  have hnd1 : (db1.map Score.id).Nodup := by
    rw [hdb1, applyWrite_map_id db sid N rfl]; exact hnd
  set pred : Score → Bool := fun s => s.player_id == p && decide (g < s.gameweek)
    with hpred
  have hL : ∀ x ∈ subsequentOf db1 p g, x ∈ db1 := by
    intro x hx
    rw [subsequentOf, List.mem_insertionSort] at hx
    exact (List.mem_filter.mp hx).1
  have hacc : db1 = db1.map (markDone db1 p []) := by
    conv_lhs => rw [← List.map_id db1]
    apply List.map_eq_map_iff.mpr
    intro s _
    simp [markDone]
  have hfold := subFold_snd p db1 hnd1 (subsequentOf db1 p g) [] [.write sid N]
    db1 hL hacc
  rw [hfold]
  apply List.map_eq_map_iff.mpr
  intro s hs
  have hmm : (s.id ∈ (subsequentOf db1 p g).map Score.id) ↔ pred s = true := by
    constructor
    · intro hmem
      have hperm : ((subsequentOf db1 p g).map Score.id).Perm
          ((db1.filter pred).map Score.id) :=
        (List.perm_insertionSort _ _).map _
      rw [hperm.mem_iff] at hmem
      obtain ⟨t, ht, htid⟩ := List.mem_map.mp hmem
      obtain ⟨ht1, ht2⟩ := List.mem_filter.mp ht
      rwa [eq_of_id_eq hnd1 ht1 hs htid] at ht2
    · intro hp
      have h1 : s ∈ db1.filter pred := List.mem_filter.mpr ⟨hs, hp⟩
      have h2 : s ∈ subsequentOf db1 p g := by
        rw [subsequentOf, List.mem_insertionSort]; exact h1
      exact List.mem_map.mpr ⟨s, h2, rfl⟩
  simp only [List.nil_append, markDone]
  by_cases hp : pred s = true
  · rw [if_pos (hmm.mpr hp), if_pos hp]
  · rw [if_neg (fun hc => hp (hmm.mp hc)), if_neg hp]

/-- A found `update_score` produces exactly the closed-form store. -/
theorem update_score_eq_spec (db : List Score) (sid p g pts cost : Int)
    (hnd : (db.map Score.id).Nodup) {sc : Score} (hsc : sc ∈ db)
    (hid : sc.id = sid) :
    update_score db sid p g pts cost =
      some (update_spec db sid p g pts cost) := by
  obtain ⟨sc0, hsc0⟩ : ∃ x, db.find? (fun s => s.id == sid) = some x := by
    have h : (db.find? (fun s => s.id == sid)).isSome := by
      rw [List.find?_isSome]
      exact ⟨sc, hsc, beq_iff_eq.mpr hid⟩
    exact Option.isSome_iff_exists.mp h
  rw [update_score, update_score_session_eq_of_find db sid p g pts cost sc0 hsc0,
    Option.map_some', sessionResult_snd db sid p g pts cost hnd]

theorem update_spec_forall₂_db1 (db : List Score) (sid p g pts cost : Int) :
    List.Forall₂ sameShape (update_spec db sid p g pts cost)
      (applyWrite db sid (newScoreFor db sid p g pts cost)) := by
  unfold update_spec
  apply forall₂_map_self
  intro s
  by_cases hp : (s.player_id == p && decide (g < s.gameweek)) = true
  · rw [if_pos hp]; exact touch_shape _ _ _
  · rw [if_neg hp]; exact sameShape_refl s

theorem forall₂_trans {R S T : Score → Score → Prop}
    (h : ∀ a b c, R a b → S b c → T a c) :
    ∀ {l₁ l₂ l₃ : List Score}, List.Forall₂ R l₁ l₂ → List.Forall₂ S l₂ l₃ →
      List.Forall₂ T l₁ l₃ := by
  intro l₁ l₂ l₃ h₁
  induction h₁ generalizing l₃ with
  | nil => intro h₂; cases h₂; exact List.Forall₂.nil
  | cons hab hl ih =>
    intro h₂
    cases h₂ with
    | cons hbc hl₂ => exact List.Forall₂.cons (h _ _ _ hab hbc) (ih hl₂)

theorem applyWrite_forall₂ (db : List Score) (sid : Int) (r : Score)
    (hr : r.id = sid) :
    List.Forall₂ (fun a b => a.id = b.id ∧ (a.id ≠ sid → a = b))
      (applyWrite db sid r) db := by
  apply forall₂_map_self
  intro s
  by_cases hid : s.id = sid
  · rw [if_pos (beq_iff_eq.mpr hid)]
    exact ⟨hr.trans hid.symm, fun hne => absurd (hr.trans hid.symm ▸ hr) hne⟩
  · rw [if_neg (by simp [hid])]
    exact ⟨rfl, fun _ => rfl⟩

/-- Rows of the post-update store keep the pre-update ids in place, and every
row other than the edited one keeps all non-derived columns. -/
theorem update_spec_forall₂_db (db : List Score) (sid p g pts cost : Int) :
    List.Forall₂ (fun a b => a.id = b.id ∧ (a.id ≠ sid → sameShape a b))
      (update_spec db sid p g pts cost) db := by
  refine forall₂_trans ?_ (update_spec_forall₂_db1 db sid p g pts cost)
    (applyWrite_forall₂ db sid (newScoreFor db sid p g pts cost) rfl)
  intro a b c hab hbc
  refine ⟨hab.1.trans hbc.1, fun hne => ?_⟩
  have hbne : b.id ≠ sid := fun hc => hne (hab.1.trans hc)
  rw [← hbc.2 hbne]
  exact hab

theorem forall₂_map_id_eq {R : Score → Score → Prop}
    (hR : ∀ a b, R a b → a.id = b.id) :
    ∀ {l₁ l₂ : List Score}, List.Forall₂ R l₁ l₂ →
      l₁.map Score.id = l₂.map Score.id := by
  intro l₁ l₂ h
  induction h with
  | nil => rfl
  | cons hab hl ih => simp only [List.map_cons, hR _ _ hab, ih]

theorem update_spec_map_id (db : List Score) (sid p g pts cost : Int) :
    (update_spec db sid p g pts cost).map Score.id = db.map Score.id :=
  forall₂_map_id_eq (fun _ _ hab => hab.1) (update_spec_forall₂_db db sid p g pts cost)

/-- Every row of the post-state carrying the edited id is the new row. -/
theorem update_spec_edited (db : List Score) (sid p g pts cost : Int) :
    ∀ r ∈ update_spec db sid p g pts cost, r.id = sid →
      r = newScoreFor db sid p g pts cost := by
  unfold update_spec
  intro r hr hrid
  obtain ⟨s', hs', rfl⟩ := List.mem_map.mp hr
  by_cases hp : (s'.player_id == p && decide (g < s'.gameweek)) = true
  · rw [if_pos hp] at hrid ⊢
    have hsid : s'.id = sid := ((touch_shape _ _ _).1).symm.trans hrid
    obtain ⟨s, hs, rfl⟩ := List.mem_map.mp hs'
    by_cases hid : s.id = sid
    · rw [if_pos (beq_iff_eq.mpr hid)] at hp
      exfalso
      revert hp
      simp [newScoreFor]
    · rw [if_neg (by simp [hid])] at hsid
      exact absurd hsid hid
  · rw [if_neg hp] at hrid ⊢
    obtain ⟨s, hs, rfl⟩ := List.mem_map.mp hs'
    by_cases hid : s.id = sid
    · rw [if_pos (beq_iff_eq.mpr hid)]
    · rw [if_neg (by simp [hid])] at hrid
      exact absurd hrid hid

/-- Every post-state row of the new player with a strictly later gameweek
carries the full-rescan cumulative total over the post-state itself. -/
theorem update_spec_subsequent (db : List Score) (sid p g pts cost : Int) :
    ∀ r ∈ update_spec db sid p g pts cost, r.player_id = p → g < r.gameweek →
      r.overall_points = sumDelta ((update_spec db sid p g pts cost).filter
        (fun t => t.player_id == p && decide (t.gameweek ≤ r.gameweek))) := by
  intro r hr hrp hrg
  have htr : sumDelta ((update_spec db sid p g pts cost).filter
        (fun t => t.player_id == p && decide (t.gameweek ≤ r.gameweek))) =
      sumDelta ((applyWrite db sid (newScoreFor db sid p g pts cost)).filter
        (fun t => t.player_id == p && decide (t.gameweek ≤ r.gameweek))) := by
    refine sumDelta_filter_congr _ ?_ ?_ (update_spec_forall₂_db1 db sid p g pts cost)
    · intro a b hab
      obtain ⟨-, h2, h3, -, -⟩ := hab
      rw [h2, h3]
    · intro a b hab _
      exact hab.delta_eq
  rw [htr]
  unfold update_spec at hr
  obtain ⟨s', hs', rfl⟩ := List.mem_map.mp hr
  by_cases hp : (s'.player_id == p && decide (g < s'.gameweek)) = true
  · rw [if_pos hp] at hrp hrg ⊢
    rfl
  · rw [if_neg hp] at hrp hrg ⊢
    exact absurd (by simp [hrp, hrg]) hp

theorem update_score_some_eq (db db' : List Score) (sid p g pts cost : Int)
    (hnd : (db.map Score.id).Nodup)
    (hok : update_score db sid p g pts cost = some db') :
    db' = update_spec db sid p g pts cost := by
  cases hfind : db.find? (fun s => s.id == sid) with
  | none =>
    rw [update_score,
      update_score_session_eq_of_find_none db sid p g pts cost hfind] at hok
    exact absurd hok (by simp)
  | some sc0 =>
    rw [update_score, update_score_session_eq_of_find db sid p g pts cost sc0 hfind,
      Option.map_some', sessionResult_snd db sid p g pts cost hnd] at hok
    exact (Option.some_injective _ hok).symm

/-- The edited-row filter cannot tell the pre- and post-update stores apart. -/
theorem sumDelta_other_transfer (db : List Score) (sid p g pts cost gw : Int) :
    sumDelta ((update_spec db sid p g pts cost).filter (fun t =>
        t.player_id == p && decide (t.gameweek ≤ gw) && t.id != sid)) =
      sumDelta (db.filter (fun t =>
        t.player_id == p && decide (t.gameweek ≤ gw) && t.id != sid)) := by
  refine sumDelta_filter_congr _ ?_ ?_ (update_spec_forall₂_db db sid p g pts cost)
  · intro a b hab
    obtain ⟨hid, hsh⟩ := hab
    by_cases haid : a.id = sid
    · have hbid : b.id = sid := hid.symm.trans haid
      simp [haid, hbid]
    · obtain ⟨h1, h2, h3, -, -⟩ := hsh haid
      rw [h1, h2, h3]
  · intro a b hab hpa
    obtain ⟨hid, hsh⟩ := hab
    have haid : a.id ≠ sid := by
      intro hc
      rw [hc] at hpa
      simp at hpa
    exact (hsh haid).delta_eq

/-- C2: for every update of a score (any id present in the store, any new
player_id, gameweek, week_points, week_cost), after the operation the edited
record's overall_points equals the sum of (week_points - week_cost) over the
new player's other records with gameweek ≤ the new gameweek plus the new
(week_points - week_cost), and every record of the new player with gameweek
greater than the new gameweek has overall_points equal to the sum of
(week_points - week_cost) over all of that player's records (edited record
included) with gameweek ≤ its own gameweek. -/
theorem update_score_cascade_correct (db db' : List Score) (sid p g pts cost : Int)
    (hnd : (db.map Score.id).Nodup)
    (hok : update_score db sid p g pts cost = some db') :
    (∀ r ∈ db', r.id = sid →
      r.overall_points = sumDelta (db'.filter (fun t =>
        t.player_id == p && decide (t.gameweek ≤ g) && t.id != sid)) + (pts - cost))
    ∧ (∀ r ∈ db', r.player_id = p → g < r.gameweek →
      r.overall_points = sumDelta (db'.filter (fun t =>
        t.player_id == p && decide (t.gameweek ≤ r.gameweek)))) := by
  obtain rfl := update_score_some_eq db db' sid p g pts cost hnd hok
  constructor
  · intro r hr hrid
    rw [update_spec_edited db sid p g pts cost r hr hrid,
      sumDelta_other_transfer db sid p g pts cost g]
    rfl
  · exact update_spec_subsequent db sid p g pts cost

/-- Witness for C2: the spec §8 example, editing gameweek 1 from 50 to 60
points cascades gameweek 2 from 85 to 95. -/
theorem update_score_cascade_correct_witness :
    (∀ r ∈ ([⟨1, 1, 1, 60, 0, 60⟩, ⟨2, 1, 2, 40, 5, 95⟩] : List Score), r.id = 1 →
      r.overall_points =
        sumDelta (([⟨1, 1, 1, 60, 0, 60⟩, ⟨2, 1, 2, 40, 5, 95⟩] : List Score).filter
          (fun t => t.player_id == 1 && decide (t.gameweek ≤ 1) && t.id != 1))
          + (60 - 0))
    ∧ (∀ r ∈ ([⟨1, 1, 1, 60, 0, 60⟩, ⟨2, 1, 2, 40, 5, 95⟩] : List Score),
        r.player_id = 1 → 1 < r.gameweek →
      r.overall_points =
        sumDelta (([⟨1, 1, 1, 60, 0, 60⟩, ⟨2, 1, 2, 40, 5, 95⟩] : List Score).filter
          (fun t => t.player_id == 1 && decide (t.gameweek ≤ r.gameweek)))) :=
  update_score_cascade_correct [⟨1, 1, 1, 50, 0, 50⟩, ⟨2, 1, 2, 40, 5, 85⟩]
    [⟨1, 1, 1, 60, 0, 60⟩, ⟨2, 1, 2, 40, 5, 95⟩] 1 1 1 60 0 (by decide) (by decide)

/-- C5: an update of a score modifies no record belonging to any player
other than the new player_id: the post-state is a positionwise rewrite of
the pre-state whose rewriting function returns every row unchanged that is
neither the edited row nor a row of the new player.  In particular, when the
update re-parents the score, the old player's remaining records are left
unmodified. -/
theorem update_score_other_players_frame (db db' : List Score)
    (sid p g pts cost : Int)
    (hnd : (db.map Score.id).Nodup)
    (hok : update_score db sid p g pts cost = some db') :
    ∃ f : Score → Score, db' = db.map f ∧
      ∀ r : Score, r.id ≠ sid → r.player_id ≠ p → f r = r := by
  obtain rfl := update_score_some_eq db db' sid p g pts cost hnd hok
  refine ⟨fun s =>
    (fun s' => if s'.player_id == p && decide (g < s'.gameweek)
        then touch (applyWrite db sid (newScoreFor db sid p g pts cost)) p s'
        else s')
      (if s.id == sid then newScoreFor db sid p g pts cost else s), ?_, ?_⟩
  · unfold update_spec applyWrite
    rw [List.map_map]
    rfl
  · intro r hrid hrp
    simp only []
    rw [if_neg (fun hc => hrid (beq_iff_eq.mp hc)),
      if_neg (fun hc => hrp (beq_iff_eq.mp ((Bool.and_eq_true _ _).mp hc).1))]

/-- Witness for C5 at a concrete two-player store. -/
theorem update_score_other_players_frame_witness :
    ∃ f : Score → Score,
      ([⟨1, 1, 1, 60, 0, 60⟩, ⟨2, 2, 1, 30, 0, 30⟩] : List Score) =
        ([⟨1, 1, 1, 50, 0, 50⟩, ⟨2, 2, 1, 30, 0, 30⟩] : List Score).map f ∧
      ∀ r : Score, r.id ≠ 1 → r.player_id ≠ 1 → f r = r :=
  update_score_other_players_frame [⟨1, 1, 1, 50, 0, 50⟩, ⟨2, 2, 1, 30, 0, 30⟩]
    [⟨1, 1, 1, 60, 0, 60⟩, ⟨2, 2, 1, 30, 0, 30⟩] 1 1 1 60 0 (by decide) (by decide)

/-- Re-running the same update on its own output is a fixed point. -/
theorem update_spec_idem (db : List Score) (sid p g pts cost : Int) :
    update_spec (update_spec db sid p g pts cost) sid p g pts cost =
      update_spec db sid p g pts cost := by
  have hN : newScoreFor (update_spec db sid p g pts cost) sid p g pts cost =
      newScoreFor db sid p g pts cost := by
    unfold newScoreFor
    rw [sumDelta_other_transfer]
  have h2 : applyWrite (update_spec db sid p g pts cost) sid
      (newScoreFor db sid p g pts cost) = update_spec db sid p g pts cost := by
    have hpt : (update_spec db sid p g pts cost).map
        (fun s => if s.id == sid then newScoreFor db sid p g pts cost else s) =
        (update_spec db sid p g pts cost).map id := by
      apply List.map_eq_map_iff.mpr
      intro s hs
      by_cases hsd : s.id = sid
      · rw [if_pos (beq_iff_eq.mpr hsd),
          update_spec_edited db sid p g pts cost s hs hsd]
        rfl
      · rw [if_neg (fun hc => hsd (beq_iff_eq.mp hc))]
        rfl
    rw [applyWrite, hpt, List.map_id]
  have h3 : (update_spec db sid p g pts cost).map
      (fun s => if s.player_id == p && decide (g < s.gameweek)
        then touch (update_spec db sid p g pts cost) p s else s) =
      (update_spec db sid p g pts cost).map id := by
    apply List.map_eq_map_iff.mpr
    intro s hs
    by_cases hp : (s.player_id == p && decide (g < s.gameweek)) = true
    · rw [if_pos hp]
      rw [Bool.and_eq_true, beq_iff_eq, decide_eq_true_eq] at hp
      have hsub := update_spec_subsequent db sid p g pts cost s hs hp.1 hp.2
      show touch (update_spec db sid p g pts cost) p s = s
      unfold touch
      rw [← hsub]
    · rw [if_neg hp]
      rfl
  conv_lhs => rw [update_spec]
  rw [hN, h2, h3, List.map_id]

/-- C9: for every existing score id and any argument tuple, running the
update twice in succession with identical inputs yields the same store state
as running it once: the second run changes nothing. -/
theorem update_score_idempotent (db db' : List Score) (sid p g pts cost : Int)
    (hnd : (db.map Score.id).Nodup)
    (hok : update_score db sid p g pts cost = some db') :
    update_score db' sid p g pts cost = some db' := by
  obtain ⟨sc0, hfind⟩ : ∃ x, db.find? (fun s => s.id == sid) = some x := by
    cases hfind : db.find? (fun s => s.id == sid) with
    | none =>
      rw [update_score,
        update_score_session_eq_of_find_none db sid p g pts cost hfind] at hok
      exact absurd hok (by simp)
    | some x => exact ⟨x, rfl⟩
  obtain rfl := update_score_some_eq db db' sid p g pts cost hnd hok
  have hnd' : ((update_spec db sid p g pts cost).map Score.id).Nodup := by
    rw [update_spec_map_id]
    exact hnd
  have hsc0id : sc0.id = sid := by
    have h := List.find?_some hfind
    simpa using h
  have hsidmem : sid ∈ (update_spec db sid p g pts cost).map Score.id := by
    rw [update_spec_map_id]
    exact List.mem_map.mpr ⟨sc0, List.mem_of_find?_eq_some hfind, hsc0id⟩
  obtain ⟨r', hr', hrid'⟩ := List.mem_map.mp hsidmem
  rw [update_score_eq_spec (update_spec db sid p g pts cost) sid p g pts cost
      hnd' hr' hrid',
    update_spec_idem db sid p g pts cost]

/-- Witness for C9 at a concrete store. -/
theorem update_score_idempotent_witness :
    update_score ([⟨1, 1, 1, 60, 0, 60⟩, ⟨2, 1, 2, 40, 5, 95⟩] : List Score)
      1 1 1 60 0 = some [⟨1, 1, 1, 60, 0, 60⟩, ⟨2, 1, 2, 40, 5, 95⟩] :=
  update_score_idempotent [⟨1, 1, 1, 50, 0, 50⟩, ⟨2, 1, 2, 40, 5, 85⟩]
    [⟨1, 1, 1, 60, 0, 60⟩, ⟨2, 1, 2, 40, 5, 95⟩] 1 1 1 60 0 (by decide) (by decide)

theorem sessionResult_fst (db : List Score) (sid p g pts cost : Int) :
    (sessionResult db sid p g pts cost).1 =
      ((subsequentOf (applyWrite db sid (newScoreFor db sid p g pts cost)) p g).foldl
        (subStep p) ([.write sid (newScoreFor db sid p g pts cost)],
          applyWrite db sid (newScoreFor db sid p g pts cost))).1 ++ [.commit] := rfl

theorem sessionResult_snd_fold (db : List Score) (sid p g pts cost : Int) :
    (sessionResult db sid p g pts cost).2 =
      ((subsequentOf (applyWrite db sid (newScoreFor db sid p g pts cost)) p g).foldl
        (subStep p) ([.write sid (newScoreFor db sid p g pts cost)],
          applyWrite db sid (newScoreFor db sid p g pts cost))).2 := rfl

/-- C8: every update of a score stages the edited record and every
recomputed subsequent record and persists them through the single
`session.commit()` at the end of the request; for any sequence of commit
outcomes, the durable store is either completely unchanged (the commit
failed: no partial application) or the complete post-state. -/
theorem update_score_atomic_commit (db db2 : List Score) (stmts : List TxStmt)
    (sid p g pts cost : Int) (oks : List Bool)
    (hses : update_score_session db sid p g pts cost = some (stmts, db2)) :
    update_score db sid p g pts cost = some db2 ∧
      (runStmts stmts oks db db = db ∨ runStmts stmts oks db db = db2) := by
  constructor
  · rw [update_score, hses]
    rfl
  · cases hfind : db.find? (fun s => s.id == sid) with
    | none =>
      rw [update_score_session_eq_of_find_none db sid p g pts cost hfind] at hses
      exact absurd hses (by simp)
    | some sc0 =>
      rw [update_score_session_eq_of_find db sid p g pts cost sc0 hfind] at hses
      have h := Option.some_injective _ hses
      have h1 : (sessionResult db sid p g pts cost).1 = stmts := by rw [h]
      have h2 : (sessionResult db sid p g pts cost).2 = db2 := by rw [h]
      subst h1 h2
      rw [sessionResult_fst, sessionResult_snd_fold]
      have hfold := subFold_fst p
        (subsequentOf (applyWrite db sid (newScoreFor db sid p g pts cost)) p g)
        [.write sid (newScoreFor db sid p g pts cost)]
        (applyWrite db sid (newScoreFor db sid p g pts cost)) db rfl
        (by intro s hs; rw [List.mem_singleton.mp hs]; rfl)
      rw [runStmts_writes_then_commit _ oks db db hfold.2]
      cases oks with
      | nil => exact Or.inl rfl
      | cons b oks' =>
        cases b
        · exact Or.inl rfl
        · exact Or.inr hfold.1

/-- Witness for C8: with a failing commit the durable store stays at the
pre-update state. -/
theorem update_score_atomic_commit_witness :
    update_score ([⟨1, 1, 1, 50, 0, 50⟩, ⟨2, 1, 2, 40, 5, 85⟩] : List Score)
        1 1 1 60 0 = some [⟨1, 1, 1, 60, 0, 60⟩, ⟨2, 1, 2, 40, 5, 95⟩] ∧
      (runStmts [.write 1 ⟨1, 1, 1, 60, 0, 60⟩, .write 2 ⟨2, 1, 2, 40, 5, 95⟩,
            .commit] [false]
          [⟨1, 1, 1, 50, 0, 50⟩, ⟨2, 1, 2, 40, 5, 85⟩]
          [⟨1, 1, 1, 50, 0, 50⟩, ⟨2, 1, 2, 40, 5, 85⟩] =
          [⟨1, 1, 1, 50, 0, 50⟩, ⟨2, 1, 2, 40, 5, 85⟩] ∨
        runStmts [.write 1 ⟨1, 1, 1, 60, 0, 60⟩, .write 2 ⟨2, 1, 2, 40, 5, 95⟩,
            .commit] [false]
          [⟨1, 1, 1, 50, 0, 50⟩, ⟨2, 1, 2, 40, 5, 85⟩]
          [⟨1, 1, 1, 50, 0, 50⟩, ⟨2, 1, 2, 40, 5, 85⟩] =
          [⟨1, 1, 1, 60, 0, 60⟩, ⟨2, 1, 2, 40, 5, 95⟩]) :=
  update_score_atomic_commit [⟨1, 1, 1, 50, 0, 50⟩, ⟨2, 1, 2, 40, 5, 85⟩]
    [⟨1, 1, 1, 60, 0, 60⟩, ⟨2, 1, 2, 40, 5, 95⟩]
    [.write 1 ⟨1, 1, 1, 60, 0, 60⟩, .write 2 ⟨2, 1, 2, 40, 5, 95⟩, .commit]
    1 1 1 60 0 [false] (by decide)

/-- C7: updating a score and deleting a score fail with NotFound exactly
when the id is absent from the store; the 404 is raised before any write, so
an aborted request (`none`) leaves the store unchanged.  With a present id
neither operation raises NotFound. -/
theorem update_delete_notfound_iff (db : List Score) (sid p g pts cost : Int) :
    (update_score db sid p g pts cost = none ↔ ¬ ∃ s ∈ db, s.id = sid)
    ∧ (delete_score db sid = none ↔ ¬ ∃ s ∈ db, s.id = sid) := by
  cases hfind : db.find? (fun s => s.id == sid) with
  | none =>
    have habs : ¬ ∃ s ∈ db, s.id = sid := by
      rw [List.find?_eq_none] at hfind
      rintro ⟨s, hs, hsid⟩
      exact hfind s hs (beq_iff_eq.mpr hsid)
    constructor
    · refine ⟨fun _ => habs, fun _ => ?_⟩
      rw [update_score, update_score_session_eq_of_find_none db sid p g pts cost hfind]
      rfl
    · refine ⟨fun _ => habs, fun _ => ?_⟩
      unfold delete_score
      rw [hfind]
  | some sc0 =>
    have hex : ∃ s ∈ db, s.id = sid := by
      refine ⟨sc0, List.mem_of_find?_eq_some hfind, ?_⟩
      have h := List.find?_some hfind
      simpa using h
    constructor
    · refine ⟨fun hup => ?_, fun hc => absurd hex hc⟩
      rw [update_score,
        update_score_session_eq_of_find db sid p g pts cost sc0 hfind] at hup
      exact absurd hup (by simp)
    · refine ⟨fun hdel => ?_, fun hc => absurd hex hc⟩
      unfold delete_score at hdel
      rw [hfind] at hdel
      exact absurd hdel (by simp)

theorem eraseP_split (p : Score → Bool) :
    ∀ (l₁ : List Score) (a : Score) (l₂ : List Score),
      (∀ x ∈ l₁, p x = false) → p a = true →
      (l₁ ++ a :: l₂).eraseP p = l₁ ++ l₂ := by
  intro l₁
  induction l₁ with
  | nil => intro a l₂ _ hpa; simp [List.eraseP_cons, hpa]
  | cons x l₁ ih =>
    intro a l₂ hno hpa
    rw [List.cons_append, List.eraseP_cons, hno x (List.mem_cons_self _ _)]
    simpa using ih a l₂ (fun y hy => hno y (List.mem_cons_of_mem _ hy)) hpa

/-- C6: deleting an existing score removes exactly that one record and
leaves every other record completely unchanged — in particular the
overall_points of the same player's later-gameweek records are not
recomputed; the form-post variant `delete_score_form` behaves identically. -/
theorem delete_score_removes_exactly_one (db : List Score) (sid : Int)
    (hnd : (db.map Score.id).Nodup) {sc : Score} (hsc : sc ∈ db)
    (hid : sc.id = sid) :
    (∃ l₁ l₂ : List Score, db = l₁ ++ sc :: l₂ ∧
      delete_score db sid = some (l₁ ++ l₂))
    ∧ delete_score_form db sid = delete_score db sid := by
  refine ⟨?_, rfl⟩
  obtain ⟨l₁, l₂, rfl⟩ := List.mem_iff_append.mp hsc
  refine ⟨l₁, l₂, rfl, ?_⟩
  have hfind : ((l₁ ++ sc :: l₂).find? (fun s => s.id == sid)).isSome := by
    rw [List.find?_isSome]
    exact ⟨sc, hsc, beq_iff_eq.mpr hid⟩
  obtain ⟨sc0, hsc0⟩ := Option.isSome_iff_exists.mp hfind
  unfold delete_score
  rw [hsc0]
  have hnd2 : (l₁.map Score.id ++ sc.id :: l₂.map Score.id).Nodup := by
    simpa using hnd
  have hdisj := (List.nodup_append.mp hnd2).2.2
  have hno : ∀ x ∈ l₁, ((fun s => s.id == sid) x) = false := by
    intro x hx
    by_cases hc : x.id = sid
    · exfalso
      exact hdisj (List.mem_map.mpr ⟨x, hx, hc⟩)
        (by rw [hid]; exact List.mem_cons_self _ _)
    · simpa using hc
  rw [eraseP_split (fun s => s.id == sid) l₁ sc l₂ hno (beq_iff_eq.mpr hid)]

/-- Witness for C6 at a concrete store. -/
theorem delete_score_removes_exactly_one_witness :
    (∃ l₁ l₂ : List Score,
      ([⟨1, 1, 1, 50, 0, 50⟩, ⟨2, 1, 2, 40, 5, 85⟩] : List Score) =
        l₁ ++ (⟨1, 1, 1, 50, 0, 50⟩ : Score) :: l₂ ∧
      delete_score [⟨1, 1, 1, 50, 0, 50⟩, ⟨2, 1, 2, 40, 5, 85⟩] 1 =
        some (l₁ ++ l₂))
    ∧ delete_score_form [⟨1, 1, 1, 50, 0, 50⟩, ⟨2, 1, 2, 40, 5, 85⟩] 1 =
        delete_score [⟨1, 1, 1, 50, 0, 50⟩, ⟨2, 1, 2, 40, 5, 85⟩] 1 :=
  delete_score_removes_exactly_one [⟨1, 1, 1, 50, 0, 50⟩, ⟨2, 1, 2, 40, 5, 85⟩] 1
    (by decide) (by decide) (by decide)

/-- Case analysis of one successful bulk-loop iteration: skipped, overwrite
of the existing (player, gameweek) row, or append of a fresh row. -/
theorem bulk_step_success_cases (g : Int) (form : BulkForm) (db : List Score)
    (nid : Int) (q : Player) (db₂ : List Score) (nid₂ : Int)
    (h : bulk_step g form (some (db, nid)) q = some (db₂, nid₂)) :
    (db₂ = db ∧ nid₂ = nid) ∨
    (∃ ex wp wc,
      db.find? (fun s => s.player_id == q.id && s.gameweek == g) = some ex ∧
      db₂ = applyWrite db ex.id { ex with week_points := wp, week_cost := wc } ∧
      nid₂ = nid) ∨
    (∃ wp wc,
      db.find? (fun s => s.player_id == q.id && s.gameweek == g) = none ∧
      db₂ = db ++ [⟨nid, q.id, g, wp, wc,
        sumDelta (db.filter (fun s => s.player_id == q.id)) + (wp - wc)⟩] ∧
      nid₂ = nid + 1) := by
  simp only [bulk_step] at h
  by_cases hc : (strFalsy (form.points q.id) || strFalsy (form.costs q.id)) = true
  · rw [if_pos hc] at h
    have hpair := Option.some_injective _ h
    exact Or.inl ⟨(congrArg Prod.fst hpair).symm, (congrArg Prod.snd hpair).symm⟩
  · rw [if_neg hc] at h
    cases hwp : formInt? (form.points q.id) with
    | none =>
      rw [hwp] at h
      cases hwc : formInt? (form.costs q.id) <;> rw [hwc] at h <;>
        exact absurd h (by simp)
    | some wp =>
      rw [hwp] at h
      cases hwc : formInt? (form.costs q.id) with
      | none => rw [hwc] at h; exact absurd h (by simp)
      | some wc =>
        rw [hwc] at h
        cases hex : db.find? (fun s => s.player_id == q.id && s.gameweek == g) with
        | some ex =>
          rw [hex] at h
          have hpair := Option.some_injective _ h
          exact Or.inr (Or.inl ⟨ex, wp, wc, rfl,
            (congrArg Prod.fst hpair).symm, (congrArg Prod.snd hpair).symm⟩)
        | none =>
          rw [hex] at h
          have hpair := Option.some_injective _ h
          exact Or.inr (Or.inr ⟨wp, wc, rfl,
            (congrArg Prod.fst hpair).symm, (congrArg Prod.snd hpair).symm⟩)

/-- A successful bulk-loop iteration keeps primary keys well formed. -/
theorem bulk_step_goodIds (g : Int) (form : BulkForm) (db : List Score)
    (nid : Int) (q : Player) (db₂ : List Score) (nid₂ : Int)
    (h : bulk_step g form (some (db, nid)) q = some (db₂, nid₂))
    (hg : goodIds db nid) : goodIds db₂ nid₂ := by
  rcases bulk_step_success_cases g form db nid q db₂ nid₂ h with
    ⟨rfl, rfl⟩ | ⟨ex, wp, wc, hex, rfl, rfl⟩ | ⟨wp, wc, hex, rfl, rfl⟩
  · exact hg
  · constructor
    · rw [applyWrite_map_id db ex.id
        { ex with week_points := wp, week_cost := wc } rfl]
      exact hg.1
    · intro s hs
      obtain ⟨t, ht, rfl⟩ := List.mem_map.mp hs
      by_cases hid : (t.id == ex.id) = true
      · rw [if_pos hid]
        exact hg.2 ex (List.mem_of_find?_eq_some hex)
      · rw [if_neg hid]
        exact hg.2 t ht
  · constructor
    · rw [List.map_append, List.nodup_append]
      refine ⟨hg.1, List.nodup_singleton _, ?_⟩
      intro a ha hb
      obtain ⟨t, ht, rfl⟩ := List.mem_map.mp ha
      have hlt := hg.2 t ht
      have : t.id = nid := by simpa using hb
      rw [this] at hlt
      exact lt_irrefl _ hlt
    · intro s hs
      rcases List.mem_append.mp hs with h' | h'
      · exact lt_trans (hg.2 s h') (lt_add_one nid)
      · rw [List.mem_singleton.mp h']
        exact lt_add_one nid

/-- A successful bulk-loop iteration for a different player leaves this
player's rows exactly as they were. -/
theorem bulk_step_frame (g : Int) (form : BulkForm) (db : List Score)
    (nid : Int) (q : Player) (db₂ : List Score) (nid₂ : Int) (pid : Int)
    (h : bulk_step g form (some (db, nid)) q = some (db₂, nid₂))
    (hg : goodIds db nid) (hq : q.id ≠ pid) :
    db₂.filter (fun s => s.player_id == pid) =
      db.filter (fun s => s.player_id == pid) := by
  rcases bulk_step_success_cases g form db nid q db₂ nid₂ h with
    ⟨rfl, rfl⟩ | ⟨ex, wp, wc, hex, rfl, rfl⟩ | ⟨wp, wc, hex, rfl, rfl⟩
  · rfl
  · have hexq : ex.player_id = q.id := by
      have h' := List.find?_some hex
      simp only [Bool.and_eq_true, beq_iff_eq] at h'
      exact h'.1
    have hexmem : ex ∈ db := List.mem_of_find?_eq_some hex
    apply filter_map_eq_self
    · intro s hs
      cases hid : (s.id == ex.id) with
      | true =>
        have hseq : s = ex := eq_of_id_eq hg.1 hs hexmem (beq_iff_eq.mp hid)
        subst hseq
        simp
      | false => simp [hid]
    · intro s hs hps
      cases hid : (s.id == ex.id) with
      | true =>
        exfalso
        have hseq : s = ex := eq_of_id_eq hg.1 hs hexmem (beq_iff_eq.mp hid)
        rw [hseq, hexq] at hps
        exact hq (beq_iff_eq.mp hps)
      | false => simp [hid]
  · rw [List.filter_append]
    have : (([⟨nid, q.id, g, wp, wc,
        sumDelta (db.filter (fun s => s.player_id == q.id)) + (wp - wc)⟩] :
          List Score).filter (fun s => s.player_id == pid)) = [] := by
      simp [hq]
    rw [this, List.append_nil]

theorem bulk_fold_none (g : Int) (form : BulkForm) :
    ∀ qs : List Player, qs.foldl (bulk_step g form) none = none
  | [] => rfl
  | q :: qs => by
    rw [List.foldl_cons]
    exact bulk_fold_none g form qs

/-- The bulk loop never touches the rows of a player that is not in the
remaining batch, and keeps primary keys well formed. -/
theorem bulk_fold_frame (g : Int) (form : BulkForm) (pid : Int) :
    ∀ (qs : List Player) (db : List Score) (nid : Int)
      (db' : List Score) (nid' : Int),
      qs.foldl (bulk_step g form) (some (db, nid)) = some (db', nid') →
      goodIds db nid → pid ∉ qs.map Player.id →
      db'.filter (fun s => s.player_id == pid) =
          db.filter (fun s => s.player_id == pid)
        ∧ goodIds db' nid' := by
  intro qs
  induction qs with
  | nil =>
    intro db nid db' nid' h hg _
    have hpair := Option.some_injective _ h
    have h1 : db = db' := congrArg Prod.fst hpair
    have h2 : nid = nid' := congrArg Prod.snd hpair
    subst h1 h2
    exact ⟨rfl, hg⟩
  | cons q qs ih =>
    intro db nid db' nid' h hg hnpid
    rw [List.map_cons, List.mem_cons] at hnpid
    push_neg at hnpid
    rw [List.foldl_cons] at h
    cases hstep : bulk_step g form (some (db, nid)) q with
    | none =>
      rw [hstep, bulk_fold_none] at h
      exact absurd h (by simp)
    | some st₂ =>
      obtain ⟨db₂, nid₂⟩ := st₂
      rw [hstep] at h
      have hg₂ := bulk_step_goodIds g form db nid q db₂ nid₂ hstep hg
      have hfr₂ := bulk_step_frame g form db nid q db₂ nid₂ pid hstep hg
        (fun hc => hnpid.1 hc.symm)
      obtain ⟨hfr, hgf⟩ := ih db₂ nid₂ db' nid' h hg₂ hnpid.2
      exact ⟨hfr.trans hfr₂, hgf⟩

theorem create_scores_bulk_eq (players : List Player) (db : List Score)
    (form : BulkForm) (nid g : Int) (hg : bulkGameweek form = some g) :
    create_scores_bulk players db form nid =
      match players.foldl (bulk_step g form) (some (db, nid)) with
      | none => none
      | some res => some res.1 := by
  unfold create_scores_bulk
  rw [hg]

theorem bulk_step_skip (g : Int) (form : BulkForm) (db : List Score)
    (nid : Int) (q : Player)
    (h : (strFalsy (form.points q.id) || strFalsy (form.costs q.id)) = true) :
    bulk_step g form (some (db, nid)) q = some (db, nid) := by
  simp only [bulk_step]
  rw [if_pos h]

theorem bulk_step_existing (g : Int) (form : BulkForm) (db : List Score)
    (nid : Int) (q : Player) (wp wc : Int) (ex : Score)
    (hfal : (strFalsy (form.points q.id) || strFalsy (form.costs q.id)) = false)
    (hwp : formInt? (form.points q.id) = some wp)
    (hwc : formInt? (form.costs q.id) = some wc)
    (hex : db.find? (fun s => s.player_id == q.id && s.gameweek == g) = some ex) :
    bulk_step g form (some (db, nid)) q =
      some (applyWrite db ex.id
        { ex with week_points := wp, week_cost := wc }, nid) := by
  simp only [bulk_step]
  rw [if_neg (by simp [hfal]), hwp, hwc, hex]

theorem bulk_step_create (g : Int) (form : BulkForm) (db : List Score)
    (nid : Int) (q : Player) (wp wc : Int)
    (hfal : (strFalsy (form.points q.id) || strFalsy (form.costs q.id)) = false)
    (hwp : formInt? (form.points q.id) = some wp)
    (hwc : formInt? (form.costs q.id) = some wc)
    (hex : db.find? (fun s => s.player_id == q.id && s.gameweek == g) = none) :
    bulk_step g form (some (db, nid)) q =
      some (db ++ [⟨nid, q.id, g, wp, wc,
        sumDelta (db.filter (fun s => s.player_id == q.id)) + (wp - wc)⟩],
        nid + 1) := by
  simp only [bulk_step]
  rw [if_neg (by simp [hfal]), hwp, hwc, hex]

/-- Filtering on (player, gameweek) factors through the player filter. -/
theorem filter_player_gameweek (l : List Score) (pid g : Int) :
    l.filter (fun s => s.player_id == pid && s.gameweek == g) =
      (l.filter (fun s => s.player_id == pid)).filter
        (fun s => s.gameweek == g) := by
  rw [List.filter_filter]
  apply List.filter_congr
  intro a _
  exact Bool.and_comm _ _

/-- A player of a batch with distinct ids splits it into a front part, the
player, and a back part that do not mention the player's id. -/
theorem players_split {players : List Player} {pl : Player}
    (hndp : (players.map Player.id).Nodup) (hpl : pl ∈ players) :
    ∃ L₁ L₂ : List Player, players = L₁ ++ pl :: L₂ ∧
      pl.id ∉ L₁.map Player.id ∧ pl.id ∉ L₂.map Player.id := by
  obtain ⟨L₁, L₂, rfl⟩ := List.mem_iff_append.mp hpl
  refine ⟨L₁, L₂, rfl, ?_, ?_⟩
  · rw [List.map_append, List.map_cons, List.nodup_append] at hndp
    intro hc
    exact hndp.2.2 hc (List.mem_cons_self _ _)
  · rw [List.map_append, List.map_cons, List.nodup_append, List.nodup_cons] at hndp
    exact hndp.2.1.1

/-- Create path of the bulk upload: the batch appends to the player's rows
exactly one new row, seeded from all of that player's pre-existing rows (no
gameweek restriction); same-batch entries of other players never enter the
seed, and the player's other rows are untouched. -/
theorem bulk_create_char (players : List Player) (db : List Score)
    (form : BulkForm) (nid g : Int) (pl : Player) (wp wc : Int)
    (db' : List Score)
    (hg : bulkGameweek form = some g)
    (hndp : (players.map Player.id).Nodup)
    (hgood : goodIds db nid)
    (hpl : pl ∈ players)
    (hfal : (strFalsy (form.points pl.id) || strFalsy (form.costs pl.id)) = false)
    (hwp : formInt? (form.points pl.id) = some wp)
    (hwc : formInt? (form.costs pl.id) = some wc)
    (hnew : db.find? (fun s => s.player_id == pl.id && s.gameweek == g) = none)
    (hok : create_scores_bulk players db form nid = some db') :
    ∃ newid : Int,
      db'.filter (fun s => s.player_id == pl.id) =
        db.filter (fun s => s.player_id == pl.id) ++
          [⟨newid, pl.id, g, wp, wc,
            sumDelta (db.filter (fun s => s.player_id == pl.id)) + (wp - wc)⟩] := by
  obtain ⟨L₁, L₂, rfl, hn1, hn2⟩ := players_split hndp hpl
  rw [create_scores_bulk_eq _ db form nid g hg] at hok
  cases hfold : (L₁ ++ pl :: L₂).foldl (bulk_step g form) (some (db, nid)) with
  | none =>
    rw [hfold] at hok
    exact absurd hok (by simp)
  | some res =>
    rw [hfold] at hok
    obtain ⟨dbF, nidF⟩ := res
    have hdb' : dbF = db' := by simpa using hok
    subst hdb'
    rw [List.foldl_append, List.foldl_cons] at hfold
    cases hA : L₁.foldl (bulk_step g form) (some (db, nid)) with
    | none =>
      rw [hA, show bulk_step g form none pl = none from rfl,
        bulk_fold_none] at hfold
      exact absurd hfold (by simp)
    | some stA =>
      obtain ⟨dbA, nidA⟩ := stA
      rw [hA] at hfold
      obtain ⟨hfrA, hgA⟩ := bulk_fold_frame g form pl.id L₁ db nid dbA nidA hA
        hgood hn1
      have hfindA : dbA.find? (fun s =>
          s.player_id == pl.id && s.gameweek == g) = none := by
        rw [find?_eq_head?_filter, filter_player_gameweek, hfrA,
          ← filter_player_gameweek, ← find?_eq_head?_filter]
        exact hnew
      rw [bulk_step_create g form dbA nidA pl wp wc hfal hwp hwc hfindA] at hfold
      have hgB := bulk_step_goodIds g form dbA nidA pl _ _
        (bulk_step_create g form dbA nidA pl wp wc hfal hwp hwc hfindA) hgA
      obtain ⟨hfrB, -⟩ := bulk_fold_frame g form pl.id L₂ _ _ dbF nidF hfold
        hgB hn2
      refine ⟨nidA, ?_⟩
      rw [hfrB, List.filter_append, hfrA]
      simp

/-- Existing path of the bulk upload: when the player already has a row for
the gameweek, the batch overwrites only that row's week_points and week_cost
— its overall_points and every other row of the player are untouched. -/
theorem bulk_existing_char (players : List Player) (db : List Score)
    (form : BulkForm) (nid g : Int) (pl : Player) (wp wc : Int) (ex : Score)
    (db' : List Score)
    (hg : bulkGameweek form = some g)
    (hndp : (players.map Player.id).Nodup)
    (hgood : goodIds db nid)
    (hpl : pl ∈ players)
    (hfal : (strFalsy (form.points pl.id) || strFalsy (form.costs pl.id)) = false)
    (hwp : formInt? (form.points pl.id) = some wp)
    (hwc : formInt? (form.costs pl.id) = some wc)
    (hex : db.find? (fun s => s.player_id == pl.id && s.gameweek == g) = some ex)
    (hok : create_scores_bulk players db form nid = some db') :
    db'.filter (fun s => s.player_id == pl.id) =
      (db.filter (fun s => s.player_id == pl.id)).map
        (fun s => if s.id == ex.id
          then { s with week_points := wp, week_cost := wc } else s) := by
  obtain ⟨L₁, L₂, rfl, hn1, hn2⟩ := players_split hndp hpl
  rw [create_scores_bulk_eq _ db form nid g hg] at hok
  cases hfold : (L₁ ++ pl :: L₂).foldl (bulk_step g form) (some (db, nid)) with
  | none =>
    rw [hfold] at hok
    exact absurd hok (by simp)
  | some res =>
    rw [hfold] at hok
    obtain ⟨dbF, nidF⟩ := res
    have hdb' : dbF = db' := by simpa using hok
    subst hdb'
    rw [List.foldl_append, List.foldl_cons] at hfold
    cases hA : L₁.foldl (bulk_step g form) (some (db, nid)) with
    | none =>
      rw [hA, show bulk_step g form none pl = none from rfl,
        bulk_fold_none] at hfold
      exact absurd hfold (by simp)
    | some stA =>
      obtain ⟨dbA, nidA⟩ := stA
      rw [hA] at hfold
      obtain ⟨hfrA, hgA⟩ := bulk_fold_frame g form pl.id L₁ db nid dbA nidA hA
        hgood hn1
      have hfindA : dbA.find? (fun s =>
          s.player_id == pl.id && s.gameweek == g) = some ex := by
        rw [find?_eq_head?_filter, filter_player_gameweek, hfrA,
          ← filter_player_gameweek, ← find?_eq_head?_filter]
        exact hex
      rw [bulk_step_existing g form dbA nidA pl wp wc ex hfal hwp hwc
        hfindA] at hfold
      have hgB := bulk_step_goodIds g form dbA nidA pl _ _
        (bulk_step_existing g form dbA nidA pl wp wc ex hfal hwp hwc hfindA) hgA
      obtain ⟨hfrB, -⟩ := bulk_fold_frame g form pl.id L₂ _ _ dbF nidF hfold
        hgB hn2
      have hexA : ex ∈ dbA := List.mem_of_find?_eq_some hfindA
      have hexdb : ex ∈ db := List.mem_of_find?_eq_some hex
      rw [hfrB, applyWrite, List.filter_map]
      have hpf : dbA.filter ((fun s => s.player_id == pl.id) ∘
          (fun s => if s.id == ex.id
            then { ex with week_points := wp, week_cost := wc } else s)) =
          dbA.filter (fun s => s.player_id == pl.id) := by
        apply List.filter_congr
        intro a ha
        cases hid : (a.id == ex.id) with
        | true =>
          have haeq : a = ex := eq_of_id_eq hgA.1 ha hexA (beq_iff_eq.mp hid)
          subst haeq
          simp
        | false =>
          have hne : a.id ≠ ex.id := by simpa using hid
          simp [hne]
      rw [hpf, hfrA]
      apply List.map_eq_map_iff.mpr
      intro s hs
      have hsdb : s ∈ db := (List.mem_filter.mp hs).1
      cases hid : (s.id == ex.id) with
      | true =>
        have hseq : s = ex := eq_of_id_eq hgood.1 hsdb hexdb (beq_iff_eq.mp hid)
        subst hseq
        simp
      | false =>
        have hne : s.id ≠ ex.id := by simpa using hid
        simp [hne]

theorem applyWrite_cons (a : Score) (l : List Score) (sid : Int) (r : Score) :
    applyWrite (a :: l) sid r =
      (if a.id == sid then r else a) :: applyWrite l sid r := rfl

theorem filter_player_le (l : List Score) (pid g : Int) :
    l.filter (fun s => s.player_id == pid && decide (s.gameweek ≤ g)) =
      (l.filter (fun s => s.player_id == pid)).filter
        (fun s => decide (s.gameweek ≤ g)) := by
  rw [List.filter_filter]
  apply List.filter_congr
  intro a _
  exact Bool.and_comm _ _

/-- Writing the row with key `sid` to `N` and then summing a filter that
keeps `N` equals summing the other kept rows plus `N`'s delta. -/
theorem sumDelta_applyWrite (db : List Score) (sid : Int) (N : Score)
    (q : Score → Bool) (hnd : (db.map Score.id).Nodup)
    (hmem : ∃ t ∈ db, t.id = sid) (hqN : q N = true) :
    sumDelta ((applyWrite db sid N).filter q) =
      sumDelta (db.filter (fun s => q s && s.id != sid)) + N.delta := by
  induction db with
  | nil =>
    obtain ⟨t, ht, -⟩ := hmem
    exact absurd ht (List.not_mem_nil t)
  | cons a l ih =>
    rw [List.map_cons, List.nodup_cons] at hnd
    by_cases haid : a.id = sid
    · have hlno : ∀ s ∈ l, s.id ≠ sid := by
        intro s hs hc
        exact hnd.1 (List.mem_map.mpr ⟨s, hs, hc.trans haid.symm⟩)
      have hl : applyWrite l sid N = l := by
        unfold applyWrite
        have hmapid : l.map (fun s => if s.id == sid then N else s) =
            l.map id := by
          apply List.map_eq_map_iff.mpr
          intro s hs
          rw [if_neg (fun hc => hlno s hs (beq_iff_eq.mp hc))]
          rfl
        rw [hmapid, List.map_id]
      rw [applyWrite_cons, if_pos (beq_iff_eq.mpr haid), hl]
      rw [List.filter_cons, List.filter_cons, if_pos hqN]
      have hfa : (q a && (a.id != sid)) = false := by simp [haid]
      rw [hfa]
      simp only [Bool.false_eq_true, if_false, sumDelta_cons]
      have h3 : l.filter (fun s => q s && s.id != sid) = l.filter q := by
        apply List.filter_congr
        intro s hs
        simp [hlno s hs]
      rw [h3]
      exact Int.add_comm _ _
    · have hmem' : ∃ t ∈ l, t.id = sid := by
        obtain ⟨t, ht, htid⟩ := hmem
        rcases List.mem_cons.mp ht with rfl | htl
        · exact absurd htid haid
        · exact ⟨t, htl, htid⟩
      rw [applyWrite_cons, if_neg (fun hc => haid (beq_iff_eq.mp hc))]
      rw [List.filter_cons, List.filter_cons]
      have hane : (a.id != sid) = true := by simp [haid]
      cases hqa : q a with
      | true =>
        rw [if_pos rfl, if_pos (by rw [hane]; rfl), sumDelta_cons, sumDelta_cons,
          ih hnd.2 hmem']
        exact (Int.add_assoc _ _ _).symm
      | false =>
        rw [if_neg (by simp), if_neg (by simp)]
        exact ih hnd.2 hmem'

/-- C1 (amended): the §3 prefix-sum invariant is maintained only locally.
After every update of a score to (player p, gameweek g), the edited record
and every record of p with a strictly later gameweek satisfy the invariant
in the post-state; after every bulk create at gameweek g, each newly created
record satisfies it provided all of its player's pre-existing records have
gameweek ≤ g.  (The global form of the claim is false: re-parenting updates
and out-of-order bulk creates leave other records stale, see the
counterexample.) -/
theorem invariant_after_update_and_create :
    (∀ (db db' : List Score) (sid p g pts cost : Int),
      (db.map Score.id).Nodup →
      update_score db sid p g pts cost = some db' →
      ∀ r ∈ db', (r.id = sid ∨ (r.player_id = p ∧ g < r.gameweek)) →
        invariantFor db' r) ∧
    (∀ (players : List Player) (db db' : List Score) (form : BulkForm)
        (nid g : Int) (pl : Player) (wp wc : Int),
      bulkGameweek form = some g →
      (players.map Player.id).Nodup →
      goodIds db nid →
      pl ∈ players →
      (strFalsy (form.points pl.id) || strFalsy (form.costs pl.id)) = false →
      formInt? (form.points pl.id) = some wp →
      formInt? (form.costs pl.id) = some wc →
      db.find? (fun s => s.player_id == pl.id && s.gameweek == g) = none →
      (∀ s ∈ db, s.player_id = pl.id → s.gameweek ≤ g) →
      create_scores_bulk players db form nid = some db' →
      ∀ r ∈ db', r.player_id = pl.id → r.gameweek = g → invariantFor db' r) := by
  constructor
  · intro db db' sid p g pts cost hnd hok r hr hcase
    have hmem : ∃ t ∈ db, t.id = sid := by
      cases hfind : db.find? (fun s => s.id == sid) with
      | none =>
        rw [update_score,
          update_score_session_eq_of_find_none db sid p g pts cost hfind] at hok
        exact absurd hok (by simp)
      | some sc0 =>
        refine ⟨sc0, List.mem_of_find?_eq_some hfind, ?_⟩
        have h := List.find?_some hfind
        simpa using h
    obtain rfl := update_score_some_eq db db' sid p g pts cost hnd hok
    rcases hcase with hrid | ⟨hrp, hrg⟩
    · have hrN := update_spec_edited db sid p g pts cost r hr hrid
      subst hrN
      unfold invariantFor
      rw [show (newScoreFor db sid p g pts cost).player_id = p from rfl,
        show (newScoreFor db sid p g pts cost).gameweek = g from rfl]
      have htr : sumDelta ((update_spec db sid p g pts cost).filter
            (fun t => t.player_id == p && decide (t.gameweek ≤ g))) =
          sumDelta ((applyWrite db sid (newScoreFor db sid p g pts cost)).filter
            (fun t => t.player_id == p && decide (t.gameweek ≤ g))) := by
        refine sumDelta_filter_congr _ ?_ ?_
          (update_spec_forall₂_db1 db sid p g pts cost)
        · intro a b hab
          obtain ⟨-, h2, h3, -, -⟩ := hab
          rw [h2, h3]
        · intro a b hab _
          exact hab.delta_eq
      rw [htr, sumDelta_applyWrite db sid _ _ hnd hmem (by simp [newScoreFor])]
      rfl
    · have hsub := update_spec_subsequent db sid p g pts cost r hr hrp hrg
      unfold invariantFor
      rw [hrp]
      exact hsub
  · intro players db db' form nid g pl wp wc hg hndp hgood hpl hfal hwp hwc
      hnew hle hok r hr hrp hrg
    obtain ⟨newid, hchar⟩ := bulk_create_char players db form nid g pl wp wc db'
      hg hndp hgood hpl hfal hwp hwc hnew hok
    have hrfilter : r ∈ db'.filter (fun s => s.player_id == pl.id) :=
      List.mem_filter.mpr ⟨hr, beq_iff_eq.mpr hrp⟩
    rw [hchar] at hrfilter
    have hrnew : r = (⟨newid, pl.id, g, wp, wc,
        sumDelta (db.filter (fun s => s.player_id == pl.id)) + (wp - wc)⟩ :
          Score) := by
      rcases List.mem_append.mp hrfilter with hpre | hsingle
      · exfalso
        have hrdb : r ∈ db := (List.mem_filter.mp hpre).1
        rw [List.find?_eq_none] at hnew
        exact hnew r hrdb (by simp [hrp, hrg])
      · simpa using hsingle
    subst hrnew
    unfold invariantFor
    simp only []
    rw [filter_player_le, hchar, List.filter_append]
    have hpre_all : ((db.filter (fun s => s.player_id == pl.id)).filter
        (fun s => decide (s.gameweek ≤ g))) =
        db.filter (fun s => s.player_id == pl.id) := by
      apply List.filter_eq_self.mpr
      intro s hs
      have h1 := List.mem_filter.mp hs
      exact decide_eq_true (hle s h1.1 (beq_iff_eq.mp h1.2))
    rw [hpre_all]
    have hnewkeep : (([⟨newid, pl.id, g, wp, wc,
        sumDelta (db.filter (fun s => s.player_id == pl.id)) + (wp - wc)⟩] :
          List Score).filter (fun s => decide (s.gameweek ≤ g))) =
        [⟨newid, pl.id, g, wp, wc,
          sumDelta (db.filter (fun s => s.player_id == pl.id)) + (wp - wc)⟩] := by
      simp
    rw [hnewkeep, sumDelta_append]
    simp [sumDelta, Score.delta]

/-- Witness for C1 (amended) at concrete stores. -/
theorem invariant_after_update_and_create_witness :
    (∀ r ∈ ([⟨1, 1, 1, 60, 0, 60⟩, ⟨2, 1, 2, 40, 5, 95⟩] : List Score),
      (r.id = 1 ∨ (r.player_id = 1 ∧ 1 < r.gameweek)) →
        invariantFor [⟨1, 1, 1, 60, 0, 60⟩, ⟨2, 1, 2, 40, 5, 95⟩] r) ∧
    (∀ r ∈ ([⟨1, 1, 1, 50, 0, 50⟩, ⟨2, 1, 2, 40, 5, 85⟩] : List Score),
      r.player_id = 1 → r.gameweek = 2 →
        invariantFor [⟨1, 1, 1, 50, 0, 50⟩, ⟨2, 1, 2, 40, 5, 85⟩] r) :=
  ⟨invariant_after_update_and_create.1 [⟨1, 1, 1, 50, 0, 50⟩, ⟨2, 1, 2, 40, 5, 85⟩]
      [⟨1, 1, 1, 60, 0, 60⟩, ⟨2, 1, 2, 40, 5, 95⟩] 1 1 1 60 0
      (by decide) (by decide),
    invariant_after_update_and_create.2 [⟨1, "A", "T"⟩] [⟨1, 1, 1, 50, 0, 50⟩]
      [⟨1, 1, 1, 50, 0, 50⟩, ⟨2, 1, 2, 40, 5, 85⟩]
      ⟨some "2", fun i => if i == 1 then some "40" else none,
        fun i => if i == 1 then some "5" else none⟩
      2 2 ⟨1, "A", "T"⟩ 40 5 (by decide) (by decide)
      (by unfold goodIds; decide) (by decide) (by decide) (by decide)
      (by decide) (by decide) (by decide) (by decide)⟩

/-- Counterexample to C1 as stated: starting from an empty scores table, two
bulk creates give player 1 consistent rows for gameweeks 1 and 2; re-parenting
the gameweek-1 row to player 2 leaves player 1's gameweek-2 row with
overall_points 85, while the invariant demands 40 - 5 = 35.  The state is
reachable by create and update operations, and the invariant does not hold
after the update. -/
theorem invariant_counterexample :
    (create_scores_bulk [⟨1, "A", "T1"⟩, ⟨2, "B", "T2"⟩] []
      ⟨some "1", fun i => if i == 1 then some "50" else none,
        fun i => if i == 1 then some "0" else none⟩ 1 =
      some [⟨1, 1, 1, 50, 0, 50⟩]) ∧
    (create_scores_bulk [⟨1, "A", "T1"⟩, ⟨2, "B", "T2"⟩] [⟨1, 1, 1, 50, 0, 50⟩]
      ⟨some "2", fun i => if i == 1 then some "40" else none,
        fun i => if i == 1 then some "5" else none⟩ 2 =
      some [⟨1, 1, 1, 50, 0, 50⟩, ⟨2, 1, 2, 40, 5, 85⟩]) ∧
    (update_score [⟨1, 1, 1, 50, 0, 50⟩, ⟨2, 1, 2, 40, 5, 85⟩] 1 2 1 50 0 =
      some [⟨1, 2, 1, 50, 0, 50⟩, ⟨2, 1, 2, 40, 5, 85⟩]) ∧
    ¬ invariantFor [⟨1, 2, 1, 50, 0, 50⟩, ⟨2, 1, 2, 40, 5, 85⟩]
        ⟨2, 1, 2, 40, 5, 85⟩ :=
  ⟨by decide, by decide, by decide, by unfold invariantFor; decide⟩

/-- Counterexample to C3 as stated: player 1's only record sits at gameweek
5; a bulk upload for gameweek 3 seeds the new record from it anyway
(overall 55), although the claim's sum over records with gameweek ≤ 3 plus
the submitted delta is 0 + 20 = 20. -/
theorem bulk_seed_counterexample :
    (create_scores_bulk [⟨1, "A", "T"⟩] []
      ⟨some "5", fun i => if i == 1 then some "40" else none,
        fun i => if i == 1 then some "5" else none⟩ 1 =
      some [⟨1, 1, 5, 40, 5, 35⟩]) ∧
    (create_scores_bulk [⟨1, "A", "T"⟩] [⟨1, 1, 5, 40, 5, 35⟩]
      ⟨some "3", fun i => if i == 1 then some "30" else none,
        fun i => if i == 1 then some "10" else none⟩ 2 =
      some [⟨1, 1, 5, 40, 5, 35⟩, ⟨2, 1, 3, 30, 10, 55⟩]) ∧
    ¬ ((⟨2, 1, 3, 30, 10, 55⟩ : Score).overall_points =
      sumDelta (([⟨1, 1, 5, 40, 5, 35⟩] : List Score).filter
        (fun s => s.player_id == 1 && decide (s.gameweek ≤ 3))) + (30 - 10)) :=
  ⟨by decide, by decide, by decide⟩

/-- C3 (amended): a bulk upload for gameweek g seeds a newly created Score
from the sum of (week_points - week_cost) over ALL of that player's
pre-existing records — with no gameweek restriction — plus the submitted
(week_points - week_cost); entries created for other players in the same
batch never enter the seed, and the player's other rows are untouched. -/
theorem bulk_seed_sums_all_preexisting (players : List Player) (db : List Score)
    (form : BulkForm) (nid g : Int) (pl : Player) (wp wc : Int)
    (db' : List Score)
    (hg : bulkGameweek form = some g)
    (hndp : (players.map Player.id).Nodup)
    (hgood : goodIds db nid)
    (hpl : pl ∈ players)
    (hfal : (strFalsy (form.points pl.id) || strFalsy (form.costs pl.id)) = false)
    (hwp : formInt? (form.points pl.id) = some wp)
    (hwc : formInt? (form.costs pl.id) = some wc)
    (hnew : db.find? (fun s => s.player_id == pl.id && s.gameweek == g) = none)
    (hok : create_scores_bulk players db form nid = some db') :
    ∃ newid : Int,
      db'.filter (fun s => s.player_id == pl.id) =
        db.filter (fun s => s.player_id == pl.id) ++
          [⟨newid, pl.id, g, wp, wc,
            sumDelta (db.filter (fun s => s.player_id == pl.id)) + (wp - wc)⟩] :=
  bulk_create_char players db form nid g pl wp wc db' hg hndp hgood hpl hfal
    hwp hwc hnew hok

/-- Witness for C3 (amended): the counterexample scenario, seeded as 35 + 20. -/
theorem bulk_seed_sums_all_preexisting_witness :
    ∃ newid : Int,
      ([⟨1, 1, 5, 40, 5, 35⟩, ⟨2, 1, 3, 30, 10, 55⟩] : List Score).filter
          (fun s => s.player_id == 1) =
        ([⟨1, 1, 5, 40, 5, 35⟩] : List Score).filter (fun s => s.player_id == 1)
          ++ [⟨newid, 1, 3, 30, 10,
            sumDelta (([⟨1, 1, 5, 40, 5, 35⟩] : List Score).filter
              (fun s => s.player_id == 1)) + (30 - 10)⟩] :=
  bulk_seed_sums_all_preexisting [⟨1, "A", "T"⟩] [⟨1, 1, 5, 40, 5, 35⟩]
    ⟨some "3", fun i => if i == 1 then some "30" else none,
      fun i => if i == 1 then some "10" else none⟩
    2 3 ⟨1, "A", "T"⟩ 30 10 [⟨1, 1, 5, 40, 5, 35⟩, ⟨2, 1, 3, 30, 10, 55⟩]
    (by decide) (by decide) (by unfold goodIds; decide) (by decide) (by decide)
    (by decide) (by decide) (by decide) (by decide)

/-- C4: when a bulk upload hits a player that already has a Score for the
gameweek, it overwrites only that record's week_points and week_cost with
the submitted values; its overall_points and every other record of that
player are left unchanged (no cumulative recomputation on this path). -/
theorem bulk_upload_existing_overwrite (players : List Player) (db : List Score)
    (form : BulkForm) (nid g : Int) (pl : Player) (wp wc : Int) (ex : Score)
    (db' : List Score)
    (hg : bulkGameweek form = some g)
    (hndp : (players.map Player.id).Nodup)
    (hgood : goodIds db nid)
    (hpl : pl ∈ players)
    (hfal : (strFalsy (form.points pl.id) || strFalsy (form.costs pl.id)) = false)
    (hwp : formInt? (form.points pl.id) = some wp)
    (hwc : formInt? (form.costs pl.id) = some wc)
    (hex : db.find? (fun s => s.player_id == pl.id && s.gameweek == g) = some ex)
    (hok : create_scores_bulk players db form nid = some db') :
    db'.filter (fun s => s.player_id == pl.id) =
      (db.filter (fun s => s.player_id == pl.id)).map
        (fun s => if s.id == ex.id
          then { s with week_points := wp, week_cost := wc } else s) :=
  bulk_existing_char players db form nid g pl wp wc ex db' hg hndp hgood hpl
    hfal hwp hwc hex hok

/-- Witness for C4: overwriting the gameweek-3 row keeps its overall_points. -/
theorem bulk_upload_existing_overwrite_witness :
    ([⟨1, 1, 3, 30, 10, 8⟩] : List Score).filter (fun s => s.player_id == 1) =
      (([⟨1, 1, 3, 10, 2, 8⟩] : List Score).filter
        (fun s => s.player_id == 1)).map
        (fun s => if s.id == (⟨1, 1, 3, 10, 2, 8⟩ : Score).id
          then { s with week_points := 30, week_cost := 10 } else s) :=
  bulk_upload_existing_overwrite [⟨1, "A", "T"⟩] [⟨1, 1, 3, 10, 2, 8⟩]
    ⟨some "3", fun i => if i == 1 then some "30" else none,
      fun i => if i == 1 then some "10" else none⟩
    2 3 ⟨1, "A", "T"⟩ 30 10 ⟨1, 1, 3, 10, 2, 8⟩ [⟨1, 1, 3, 30, 10, 8⟩]
    (by decide) (by decide) (by unfold goodIds; decide) (by decide) (by decide)
    (by decide) (by decide) (by decide) (by decide)

/-- C10: a supplied player_id or gameweek filter string that is non-empty
but does not parse as an integer is silently ignored by the GET /scores
listing: the returned sequence is exactly the scores matching the remaining
valid filters, as if the invalid filter were unsupplied. -/
theorem scores_filter_invalid_ignored (db : List Score) (v : String)
    (player_id gameweek : Option String) (hv : v ≠ "")
    (hparse : pyInt v = none) :
    scores db (some v) gameweek = scores db none gameweek ∧
      scores db player_id (some v) = scores db player_id none := by
  constructor
  · simp only [scores]
    rw [hparse]
    by_cases hc : ((v != "") && (pyStrip v != "")) = true
    · rw [if_pos hc]
    · rw [if_neg hc]
  · simp only [scores]
    rw [hparse]
    by_cases hc : ((v != "") && (pyStrip v != "")) = true
    · rw [if_pos hc]
    · rw [if_neg hc]

/-- Witness for C10 at a concrete store with the invalid filter string. -/
theorem scores_filter_invalid_ignored_witness :
    scores [⟨1, 1, 1, 5, 0, 5⟩] (some "abc") none =
        scores [⟨1, 1, 1, 5, 0, 5⟩] none none ∧
      scores [⟨1, 1, 1, 5, 0, 5⟩] (some "2") (some "abc") =
        scores [⟨1, 1, 1, 5, 0, 5⟩] (some "2") none :=
  scores_filter_invalid_ignored [⟨1, 1, 1, 5, 0, 5⟩] "abc" (some "2") none
    (by decide) (by decide)
